import Mathlib

/-!
Verification of the incremental-transcription daemon
(src/realtime-whisper-daemon.py).

Python strings are modelled as lists of characters (`PyStr`); Python's
slice `s[:10]` is `List.take 10`, `s[k:]` is `List.drop k`,
`a.startswith(b)` is `b <+: a`, `a.endswith(b)` is `b <:+ a`, and
`str.strip()` is `pyStrip`.  The `collections.deque` with `maxlen` that
backs the rolling audio buffer is modelled by keeping the most recent
`cap` elements of the concatenation of everything pushed.  The daemon's
global mutable variables become fields of explicit state records, and
the body of each Python function becomes a state-transforming Lean
function of the same name.
-/

namespace S2T

/-- A Python string, modelled as its sequence of characters. -/
abbrev PyStr := List Char

/-- Python `str.strip()`: remove whitespace from both ends
(models line 119, `result["text"].strip()`). -/
def pyStrip (s : PyStr) : PyStr :=
  ((s.dropWhile Char.isWhitespace).reverse.dropWhile Char.isWhitespace).reverse

/-- Configuration constant `SAMPLE_RATE = 16000` (line 30). -/
def SAMPLE_RATE : Nat := 16000

/-- Configuration constant `SEGMENT_LENGTH = 2` (line 37). -/
def SEGMENT_LENGTH : Nat := 2

/-- Configuration constant `BUFFER_LENGTH = 10` (line 38). -/
def BUFFER_LENGTH : Nat := 10

/-- Capacity of the rolling audio buffer:
`deque(maxlen=int(BUFFER_LENGTH * SAMPLE_RATE))` (line 45). -/
def bufferCapacity : Nat := BUFFER_LENGTH * SAMPLE_RATE

/-- Dispatch threshold `SEGMENT_LENGTH * SAMPLE_RATE` (line 191). -/
def segmentThreshold : Nat := SEGMENT_LENGTH * SAMPLE_RATE

/-- Result of one reconciliation step: `delta = some d` exactly when the
worker invokes the text sink (`xdotool type`, line 136) with `d`;
`lastText` is the value of the global `last_text` after the step. -/
structure ReconcileResult where
  delta : Option PyStr
  lastText : PyStr
deriving DecidableEq

/-- The reconciliation step performed by `transcription_worker` on one
transcription result (lines 119-141 of src/realtime-whisper-daemon.py):
strip the raw text; if empty, or equal to `last_text`, or a suffix of
`last_text`, emit nothing and leave the state unchanged; otherwise emit
either the new tail `transcription[len(last_text):]` (when
`len(transcription) > len(last_text)` and
`transcription.startswith(last_text[:10])`) or `" " + transcription`,
and set `last_text` to the stripped candidate. -/
def reconcile (last_text : PyStr) (rawText : PyStr) : ReconcileResult :=
  if pyStrip rawText = [] then
    ⟨none, last_text⟩
  else if pyStrip rawText = last_text ∨ pyStrip rawText <:+ last_text then
    ⟨none, last_text⟩
  else if last_text.length < (pyStrip rawText).length ∧
      last_text.take 10 <+: pyStrip rawText then
    ⟨some ((pyStrip rawText).drop last_text.length), pyStrip rawText⟩
  else
    ⟨some (' ' :: pyStrip rawText), pyStrip rawText⟩

/-- The daemon's global mutable variables relevant to the session
lifecycle (lines 41-49): `recording`, `stop_threads`, `audio_buffer`
and `last_text`. -/
structure DaemonState where
  recording : Bool
  stop_threads : Bool
  audio_buffer : List Int
  last_text : PyStr
deriving DecidableEq

/-- The globals at process startup: `recording = False`,
`stop_threads = False`, empty buffer, `last_text = ""` (lines 41-49). -/
def initState : DaemonState :=
  ⟨false, false, [], []⟩

/-- `start_recording` (lines 65-98): a no-op while already recording;
otherwise clears the audio buffer, resets `stop_threads`, and sets
`recording = True`.  It does not touch `last_text`. -/
def start_recording (s : DaemonState) : DaemonState :=
  if s.recording then s
  else { s with audio_buffer := [], stop_threads := false, recording := true }

/-- `stop_recording` (lines 153-178): a no-op while not recording;
otherwise sets `recording = False` and `stop_threads = True`.  It does
not touch `last_text`. -/
def stop_recording (s : DaemonState) : DaemonState :=
  if s.recording then { s with recording := false, stop_threads := true }
  else s

/-- One iteration of `transcription_worker` that received the given raw
transcription text for a dequeued segment: apply `reconcile` to the
global `last_text` (lines 119-141). -/
def worker_step (s : DaemonState) (rawText : PyStr) : DaemonState :=
  { s with last_text := (reconcile s.last_text rawText).lastText }

/-- One push into a `deque` with `maxlen = cap` via `extend` (line 188):
append the chunk and evict the oldest samples beyond capacity. -/
def dequeExtend (cap : Nat) (buf chunk : List Int) : List Int :=
  (buf ++ chunk).drop (buf.length + chunk.length - cap)

/-- FIFO enqueue, `queue.Queue.put` (line 196). -/
def queuePut {α : Type} (q : List α) (x : α) : List α :=
  q ++ [x]

/-- Enqueue a whole sequence of items in order. -/
def enqueueAll {α : Type} (q : List α) (xs : List α) : List α :=
  xs.foldl queuePut q

/-- The capture-side state touched by `process_audio_chunk`:
the rolling `audio_buffer` and the `audio_queue` of dispatched
segments (each queue entry is exactly the bare snapshot
`np.array(list(audio_buffer))`, line 193 — nothing else is enqueued). -/
structure CaptureState where
  audio_buffer : List Int
  audio_queue : List (List Int)
deriving DecidableEq

/-- `process_audio_chunk` (lines 180-196): extend the rolling buffer
with the chunk; if the buffer now holds at least
`SEGMENT_LENGTH * SAMPLE_RATE` samples, enqueue a snapshot of the
entire buffer on the job queue. -/
def process_audio_chunk (st : CaptureState) (chunk : List Int) : CaptureState :=
  let buf := dequeExtend bufferCapacity st.audio_buffer chunk
  if segmentThreshold ≤ buf.length then
    ⟨buf, queuePut st.audio_queue buf⟩
  else
    ⟨buf, st.audio_queue⟩

/-- The worker loop (lines 104-144) draining a list of queued segments
in order: each iteration transcribes one segment (the backend is a
black-box parameter receiving the segment and the current `last_text`
as `initial_prompt`) and reconciles the result, threading `last_text`
through.  Returns the per-segment emissions in processing order. -/
def workerRun (backend : List Int → PyStr → PyStr) :
    PyStr → List (List Int) → List (Option PyStr)
  | _, [] => []
  | last, seg :: rest =>
    let r := reconcile last (backend seg last)
    r.delta :: workerRun backend r.lastText rest

/-- A concrete session trace for the restart behaviour: start, one
reconciled result "hello", stop, then start again. -/
def sessionTrace : DaemonState :=
  start_recording (stop_recording
    (worker_step (start_recording initState) "hello".toList))

/-- A buffer exactly at the dispatch threshold (2 seconds of silence). -/
def seg0 : List Int :=
  List.replicate segmentThreshold 0

/-- C1 counterexample: after a stop command followed by a start command,
`last_text` still holds the previous session's transcript "hello" — it
is not reset to the empty string.  Neither `start_recording` nor
`stop_recording` assigns to `last_text` anywhere in the source. -/
theorem session_restart_keeps_last_text :
    sessionTrace.last_text = "hello".toList ∧ sessionTrace.last_text ≠ [] := by
  decide

/-- C1 (amended): neither the start nor the stop transition resets the
reconciliation state: `last_text` is preserved by both, and it is empty
only in the process-startup state. -/
theorem start_stop_no_reset (s : DaemonState) :
    (start_recording s).last_text = s.last_text ∧
    (stop_recording s).last_text = s.last_text ∧
    initState.last_text = [] := by
  refine ⟨?_, ?_, rfl⟩ <;>
    simp only [start_recording, stop_recording] <;> split <;> rfl

/-- C2 counterexample: from the initial state (`last_text` empty),
reconciling "hello" emits the delta "hello" with NO leading space — the
continuation test `transcription.startswith(last_text[:10])` is
vacuously true against the empty `last_text`, so the growth branch
fires and yields `transcription[0:]`, not `" " + transcription`. -/
theorem first_delta_has_no_leading_space :
    (reconcile [] "hello".toList).delta = some ("hello".toList) ∧
    (reconcile [] "hello".toList).delta ≠ some (" hello".toList) := by
  decide

/-- C2 (amended): from the initial state, reconciling "hello" emits the
delta "hello" (no leading space) and sets `last_text` to "hello"; then
reconciling "hello world" emits the delta " world" and sets `last_text`
to "hello world". -/
theorem hello_world_scenario :
    reconcile [] "hello".toList =
      ⟨some ("hello".toList), "hello".toList⟩ ∧
    reconcile "hello".toList "hello world".toList =
      ⟨some (" world".toList), "hello world".toList⟩ := by
  decide

/-- C4 counterexample: `last_text` can shrink during a session.  With
`last_text = "hello world"` (11 characters) the candidate "bye" is
neither equal to it nor one of its suffixes, fails the continuation
test, and is accepted through the new-utterance branch, leaving
`last_text = "bye"` (3 characters) — no session reset involved. -/
theorem last_text_can_shrink :
    reconcile "hello world".toList "bye".toList =
      ⟨some (" bye".toList), "bye".toList⟩ ∧
    (reconcile "hello world".toList "bye".toList).lastText.length <
      "hello world".toList.length := by
  decide

/-- C3 counterexample: with `last_text = "hello"` (5 characters) and
candidate "hello world", the first 10 characters of the two strings
differ ("hello worl" vs "hello"), yet the code takes the growth branch
and emits " world", not `" " + candidate`: the source tests
`candidate.startswith(last_text[:10])`, which for a `last_text` shorter
than 10 characters compares against all of `last_text`, not against a
10-character opening of each string. -/
theorem growth_branch_short_last_text :
    pyStrip "hello world".toList = "hello world".toList ∧
    "hello world".toList ≠ [] ∧
    ¬ ("hello world".toList = "hello".toList ∨
       "hello world".toList <:+ "hello".toList) ∧
    "hello world".toList.take 10 ≠ "hello".toList.take 10 ∧
    (reconcile "hello".toList "hello world".toList).delta =
      some (" world".toList) ∧
    (reconcile "hello".toList "hello world".toList).delta ≠
      some (' ' :: "hello world".toList) := by
  decide

/-- C6: for every trimmed candidate that equals `last_text` or is a
suffix of it, `reconcile` emits nothing and leaves the state
unchanged. -/
theorem suppress_no_emit (last c : PyStr) (hc : pyStrip c = c)
    (h : c = last ∨ c <:+ last) :
    reconcile last c = ⟨none, last⟩ := by
  unfold reconcile
  rw [hc]
  by_cases hnil : c = []
  · rw [if_pos hnil]
  · rw [if_neg hnil, if_pos h]

/-- C6 witness at `last_text = "hello world"`, candidate `"world"`. -/
theorem suppress_no_emit_witness :
    pyStrip "world".toList = "world".toList ∧
    ("world".toList = "hello world".toList ∨
      "world".toList <:+ "hello world".toList) ∧
    reconcile "hello world".toList "world".toList =
      ⟨none, "hello world".toList⟩ :=
  ⟨by decide, by decide,
    suppress_no_emit "hello world".toList "world".toList
      (by decide) (by decide)⟩

/-- C5: for every `last_text` and every trimmed candidate that starts
with `last_text`, the emitted delta is exactly
`candidate[len(last_text):]` with no leading space added (the delta of
a suppressed call counts as the empty string). -/
theorem prefix_candidate_delta (last c : PyStr) (hc : pyStrip c = c)
    (h : last <+: c) :
    (reconcile last c).delta.getD [] = c.drop last.length := by
  by_cases heq : c = last
  · subst heq
    rw [List.drop_length]
    by_cases hnil : c = []
    · subst hnil
      simp [reconcile, pyStrip]
    · simp [reconcile, hc, hnil]
  · have hlen : last.length < c.length := by
      rcases Nat.lt_or_ge last.length c.length with h1 | h1
      · exact h1
      · exact absurd (h.eq_of_length (Nat.le_antisymm h.length_le h1)).symm heq
    have hnil : c ≠ [] := by
      intro h0
      rw [h0] at hlen
      simp at hlen
    have hnsuf : ¬ c <:+ last := by
      intro hs
      exact absurd hs.length_le (Nat.not_le.mpr hlen)
    have h10 : last.take 10 <+: c := ( List.take_prefix 10 last).trans h
    simp [reconcile, hc, hnil, heq, hnsuf, hlen, h10]

/-- C5 witness at `last_text = "ab"`, candidate `"abc"`. -/
theorem prefix_candidate_delta_witness :
    pyStrip "abc".toList = "abc".toList ∧
    "ab".toList <+: "abc".toList ∧
    (reconcile "ab".toList "abc".toList).delta.getD [] =
      "abc".toList.drop ("ab".toList.length) :=
  ⟨by decide, by decide,
    prefix_candidate_delta "ab".toList "abc".toList (by decide) (by decide)⟩

/-- C7: for every raw text `a` and every engine state, reconciling `a`
and then immediately reconciling `a` again emits nothing on the second
call. -/
theorem reconcile_idempotent_second_call (last a : PyStr) :
    (reconcile (reconcile last a).lastText a).delta = none := by
  by_cases h1 : pyStrip a = []
  · simp [reconcile, h1]
  · by_cases h2 : pyStrip a = last ∨ pyStrip a <:+ last
    · have hl : (reconcile last a).lastText = last := by
        unfold reconcile
        rw [if_neg h1, if_pos h2]
      rw [hl]
      unfold reconcile
      rw [if_neg h1, if_pos h2]
    · have hl : (reconcile last a).lastText = pyStrip a := by
        unfold reconcile
        rw [if_neg h1, if_neg h2]
        split <;> rfl
      rw [hl]
      unfold reconcile
      rw [if_neg h1, if_pos (Or.inl rfl)]

/-- C10: whenever the worker invokes the text sink, the emitted delta
is a non-empty string: the growth branch drops strictly fewer
characters than the candidate holds, and the new-utterance branch
prepends a space to a non-empty candidate. -/
theorem emitted_delta_nonempty (last raw d : PyStr)
    (h : (reconcile last raw).delta = some d) : d ≠ [] := by
  unfold reconcile at h
  by_cases h1 : pyStrip raw = []
  · rw [if_pos h1] at h
    exact absurd h (by simp)
  · rw [if_neg h1] at h
    by_cases h2 : pyStrip raw = last ∨ pyStrip raw <:+ last
    · rw [if_pos h2] at h
      exact absurd h (by simp)
    · rw [if_neg h2] at h
      by_cases h3 : last.length < (pyStrip raw).length ∧
          last.take 10 <+: pyStrip raw
      · rw [if_pos h3] at h
        have hx : (pyStrip raw).drop last.length = d := by simpa using h
        intro h0
        rw [h0] at hx
        have hlen := congrArg List.length hx
        rw [List.length_drop] at hlen
        simp at hlen
        obtain ⟨h31, _⟩ := h3
        omega
      · rw [if_neg h3] at h
        have hx : ' ' :: pyStrip raw = d := by simpa using h
        intro h0
        rw [h0] at hx
        exact List.cons_ne_nil _ _ hx

/-- C10 witness at `last_text = ""`, raw text `"ok"`. -/
theorem emitted_delta_nonempty_witness :
    (reconcile [] "ok".toList).delta = some ("ok".toList) ∧
    "ok".toList ≠ [] :=
  ⟨by decide, emitted_delta_nonempty [] "ok".toList "ok".toList (by decide)⟩

/-- C3 (amended): for a trimmed, non-empty, non-suppressed candidate,
the growth branch (delta `candidate[len(last_text):]`) is taken exactly
when `len(candidate) > len(last_text)` and the candidate starts with
`last_text[:10]` — the first at-most-ten characters of `last_text`;
otherwise the delta is a space followed by the candidate. -/
theorem growth_branch_characterisation (last c : PyStr) (hc : pyStrip c = c)
    (hnil : c ≠ []) (hsup : ¬ (c = last ∨ c <:+ last)) :
    ((reconcile last c).delta = some (c.drop last.length) ↔
      last.length < c.length ∧ last.take 10 <+: c) ∧
    (¬ (last.length < c.length ∧ last.take 10 <+: c) →
      (reconcile last c).delta = some (' ' :: c)) := by
  unfold reconcile
  rw [hc, if_neg hnil, if_neg hsup]
  by_cases h3 : last.length < c.length ∧ last.take 10 <+: c
  · rw [if_pos h3]
    exact ⟨⟨fun _ => h3, fun _ => rfl⟩, fun hn => absurd h3 hn⟩
  · rw [if_neg h3]
    refine ⟨⟨fun he => ?_, fun hg => absurd hg h3⟩, fun _ => rfl⟩
    have hx : ' ' :: c = c.drop last.length := by simpa using he
    have hlen : c.length + 1 = c.length - last.length := by
      have h0 := congrArg List.length hx
      simpa [List.length_drop] using h0
    exact absurd hlen (by omega)

/-- C3 witness at `last_text = "hello"`, candidate `"hello there"`. -/
theorem growth_branch_characterisation_witness :
    pyStrip "hello there".toList = "hello there".toList ∧
    "hello there".toList ≠ [] ∧
    ¬ ("hello there".toList = "hello".toList ∨
       "hello there".toList <:+ "hello".toList) ∧
    (((reconcile "hello".toList "hello there".toList).delta =
        some ("hello there".toList.drop "hello".toList.length) ↔
      "hello".toList.length < "hello there".toList.length ∧
        "hello".toList.take 10 <+: "hello there".toList) ∧
     (¬ ("hello".toList.length < "hello there".toList.length ∧
          "hello".toList.take 10 <+: "hello there".toList) →
      (reconcile "hello".toList "hello there".toList).delta =
        some (' ' :: "hello there".toList))) :=
  ⟨by decide, by decide, by decide,
    growth_branch_characterisation "hello".toList "hello there".toList
      (by decide) (by decide) (by decide)⟩

/-- C4 (amended): every reconcile step that mutates state (emits a
delta) sets `last_text` to the trimmed candidate — which the
new-utterance branch allows to be shorter than before — and under the
continuation test the length strictly grows. -/
theorem mutating_step_sets_last_text (last raw d : PyStr)
    (h : (reconcile last raw).delta = some d) :
    (reconcile last raw).lastText = pyStrip raw ∧
    (last.length < (pyStrip raw).length ∧
        last.take 10 <+: pyStrip raw →
      last.length < (reconcile last raw).lastText.length) := by
  unfold reconcile at h ⊢
  by_cases h1 : pyStrip raw = []
  · rw [if_pos h1] at h
    exact absurd h (by simp)
  · rw [if_neg h1] at h ⊢
    by_cases h2 : pyStrip raw = last ∨ pyStrip raw <:+ last
    · rw [if_pos h2] at h
      exact absurd h (by simp)
    · rw [if_neg h2] at h ⊢
      by_cases h3 : last.length < (pyStrip raw).length ∧
          last.take 10 <+: pyStrip raw
      · rw [if_pos h3]
        exact ⟨rfl, fun hg => hg.1⟩
      · rw [if_neg h3]
        exact ⟨rfl, fun hg => absurd hg h3⟩

/-- C4 witness at `last_text = ""`, raw text `"hi"`. -/
theorem mutating_step_sets_last_text_witness :
    (reconcile [] "hi".toList).delta = some ("hi".toList) ∧
    ((reconcile [] "hi".toList).lastText = pyStrip "hi".toList ∧
     (([] : PyStr).length < (pyStrip "hi".toList).length ∧
        ([] : PyStr).take 10 <+: pyStrip "hi".toList →
      ([] : PyStr).length < (reconcile [] "hi".toList).lastText.length)) :=
  ⟨by decide, mutating_step_sets_last_text [] "hi".toList "hi".toList (by decide)⟩

/-- A buffer that is the most-recent-suffix of everything seen so far
stays that way under one more `dequeExtend`. -/
theorem dequeExtend_drop (cap : Nat) (l c : List Int) :
    dequeExtend cap (l.drop (l.length - cap)) c =
      (l ++ c).drop ((l ++ c).length - cap) := by
  unfold dequeExtend
  rw [← List.drop_append_of_le_length (Nat.sub_le l.length cap),
    List.drop_drop, List.length_drop, List.length_append]
  congr 1
  omega

/-- Folding any sequence of pushes over a most-recent-suffix buffer
yields the most-recent-suffix of the full sample stream. -/
theorem foldl_dequeExtend (cap : Nat) (pushes : List (List Int)) (l : List Int) :
    pushes.foldl (dequeExtend cap) (l.drop (l.length - cap)) =
      (l ++ pushes.flatten).drop ((l ++ pushes.flatten).length - cap) := by
  induction pushes generalizing l with
  | nil => simp
  | cons c ps ih =>
    rw [List.foldl_cons, dequeExtend_drop, ih (l ++ c)]
    simp [List.append_assoc]

/-- C8: for every sequence of pushes, the rolling audio buffer never
exceeds its configured capacity, and it always equals the most recent
at-most-`bufferCapacity` samples of everything pushed, in temporal
order — the oldest samples are the ones evicted. -/
theorem rolling_buffer_capacity_fifo (pushes : List (List Int)) :
    (pushes.foldl (dequeExtend bufferCapacity) []).length ≤ bufferCapacity ∧
    pushes.foldl (dequeExtend bufferCapacity) [] =
      pushes.flatten.drop (pushes.flatten.length - bufferCapacity) := by
  have h := foldl_dequeExtend bufferCapacity pushes []
  simp only [List.drop_nil, List.nil_append] at h
  refine ⟨?_, h⟩
  rw [h, List.length_drop]
  omega

/-- Enqueueing a sequence of items appends them in order. -/
theorem enqueueAll_eq_append {α : Type} (xs q : List α) :
    enqueueAll q xs = q ++ xs := by
  induction xs generalizing q with
  | nil => simp [enqueueAll]
  | cons x xs ih =>
    have h1 : enqueueAll q (x :: xs) = enqueueAll (q ++ [x]) xs := rfl
    rw [h1, ih (q ++ [x]), List.append_assoc]
    rfl

/-- C9 counterexample: queue entries carry no sequence number — each is
the bare buffer snapshot.  Two consecutive dispatch cycles over an
unchanged buffer (an empty chunk arriving with the buffer already at
the threshold) enqueue two equal entries, which is impossible for
entries tagged with strictly increasing sequence numbers. -/
theorem dispatch_entries_untagged :
    (process_audio_chunk (process_audio_chunk ⟨seg0, []⟩ []) []).audio_queue =
      [seg0, seg0] := by
  have hlen : seg0.length = segmentThreshold := by
    simp [seg0]
  have h0 : seg0.length + ([] : List Int).length - bufferCapacity = 0 := by
    rw [hlen]
    decide
  have hext : dequeExtend bufferCapacity seg0 [] = seg0 := by
    unfold dequeExtend
    rw [h0, List.drop_zero, List.append_nil]
  have hth : segmentThreshold ≤ seg0.length := Nat.le_of_eq hlen.symm
  have hstep1 : process_audio_chunk ⟨seg0, []⟩ [] = ⟨seg0, [seg0]⟩ := by
    simp only [process_audio_chunk]
    rw [hext, if_pos hth]
    rfl
  have hstep2 : process_audio_chunk ⟨seg0, [seg0]⟩ [] = ⟨seg0, [seg0, seg0]⟩ := by
    simp only [process_audio_chunk]
    rw [hext, if_pos hth]
    rfl
  rw [hstep1, hstep2]

/-- C9 (amended): segments are enqueued untagged on a FIFO queue whose
single consumer processes them one at a time, so results reach the
reconciliation step exactly in dispatch order: draining the queue built
from the dispatched segments processes those segments in dispatch
order, one result per segment. -/
theorem results_in_dispatch_order (backend : List Int → PyStr → PyStr)
    (segs : List (List Int)) (last : PyStr) :
    workerRun backend last (enqueueAll [] segs) =
      workerRun backend last segs ∧
    (workerRun backend last segs).length = segs.length := by
  constructor
  · rw [enqueueAll_eq_append, List.nil_append]
  · induction segs generalizing last with
    | nil => rfl
    | cons s ss ih => simp [workerRun, ih]

end S2T
